import Mathlib

/-!
# socket-logger: the message model, the queue classifier and the connection registry

A shallow embedding of `main.go`.

* Go `[]byte` and `string` values are byte lists (`Bytes`).
* Go `int`, `int64` and `Level` values are `Int`; the one arithmetic operation of the
  program, `f.counter += 1`, wraps at 64 bits (`wrapInt`).
* `json.Unmarshal` belongs to the Go standard library, not to this program: `NewMessage`,
  `Fan.queue` and `send` take the decoder as an argument, and the general theorems hold
  for every decoder.  `jsonUnmarshal` is a reference decoder used to evaluate the program
  on concrete payloads.
* The `sync.Mutex` embedded in `Fan` is the field `locked`; an operation that calls `Lock`
  on a held mutex never returns (`Result.blocked`).
* A send on the channel `f.in` appends to the field `in_` (the wait for `listen` to take
  the message is not modelled); the calls made on connections (`WriteJSON`, `Close`) are
  recorded in the field `calls`.
* Logging is left out.
-/

namespace SocketLogger

/-! ## Bytes -/

/-- Go byte slices and strings. -/
abbrev Bytes := List UInt8

/-- The bytes of a string literal (UTF-8, as in a Go source file). -/
def utf8 (s : String) : Bytes := s.toUTF8.data.toList

/-! ## Levels and messages -/

/-- Line 41: `const clearOnStartMessage = "clears"`. -/
def clearOnStartMessage : Bytes := utf8 "clears"

/-- Line 42: `const clearOnFinishMessage = "clearf"`. -/
def clearOnFinishMessage : Bytes := utf8 "clearf"

/-- Line 102: `clearOnStart = -2`, the first constant of the block (its `iota` is 0). -/
def clearOnStart : Int := -2

/-- Line 103: `clearOnFinish = -1`, the second constant of the block (its `iota` is 1). -/
def clearOnFinish : Int := -1

/-- Line 104: `debug Level = iota`. Go's `iota` is the index of the constant within its
`const` block; `debug` is the third constant, so its value is 2. -/
def debug : Int := 2

/-- Line 105: `info`, repeating `Level = iota` at index 3. -/
def info : Int := 3

/-- Line 106: `warn`, repeating `Level = iota` at index 4. -/
def warn : Int := 4

/-- Line 107: `er`, repeating `Level = iota` at index 5. -/
def er : Int := 5

/-- Lines 112-120: `type Message struct`. -/
structure Message where
  Time : Int
  Content : Bytes
  LoggerName : Bytes
  FileName : Bytes
  LineNum : Int
  ColumnNum : Int
  Level : Int
deriving DecidableEq, Repr

/-- The value of `&Message{}` (line 191): every field zero. -/
def Message.zero : Message :=
  { Time := 0, Content := [], LoggerName := [], FileName := [],
    LineNum := 0, ColumnNum := 0, Level := 0 }

/-- The composite literal of lines 124-131; `LoggerName` is not listed and stays empty. -/
def Message.defaults : Message :=
  { Time := 0, Content := [], LoggerName := [], FileName := [],
    LineNum := -1, ColumnNum := -1, Level := 0 }

/-- The two kinds of error `json.Unmarshal` returns. -/
inductive JSONError where
  | SyntaxError
  | UnmarshalTypeError
deriving DecidableEq, Repr

/-- The signature of `json.Unmarshal(data, msg)` at `*Message`: the decoded message, which
starts from the fields `msg` already holds, or an error. -/
abbrev Unmarshal := Bytes → Message → Except JSONError Message

/-- Lines 123-139: `NewMessage`. -/
def NewMessage (unmarshal : Unmarshal) (message : Bytes) : Except JSONError Message :=
  match unmarshal message Message.defaults with
  | .error err => .error err
  | .ok msg =>
    if msg.Level < debug ∨ msg.Level > er then
      .ok { msg with Level := er }
    else
      .ok msg

/-! ## A reference JSON decoder

`jsonUnmarshal` follows `encoding/json`: the whole input is first checked against the JSON
grammar (a syntax error wins over everything else), then the members of the top-level
object are stored into the fields whose tag matches the key, ASCII case folded.  A `null`
leaves a field as it is, a value of the wrong kind is a type error.  Not modelled: the
limit on nesting depth and the replacement of invalid UTF-8 inside string values. -/

/-- A parsed JSON text; a number keeps its literal. -/
inductive JSON where
  | null
  | bool (b : Bool)
  | num (lit : Bytes)
  | str (s : Bytes)
  | arr (items : List JSON)
  | obj (members : List (Bytes × JSON))

/-- JSON white space: space, tab, line feed, carriage return. -/
def isSpace (b : UInt8) : Bool := b = 0x20 || b = 0x09 || b = 0x0A || b = 0x0D

/-- Drops leading white space. -/
def skipSpace : Bytes → Bytes
  | [] => []
  | b :: rest => if isSpace b then skipSpace rest else b :: rest

/-- An ASCII decimal digit. -/
def isDigit (b : UInt8) : Bool := decide (0x30 ≤ b) && decide (b ≤ 0x39)

/-- Splits off the leading run of digits. -/
def spanDigits : Bytes → Bytes × Bytes
  | [] => ([], [])
  | b :: rest =>
    if isDigit b then ((b :: (spanDigits rest).1), (spanDigits rest).2) else ([], b :: rest)

/-- The integer part of a number: `0`, or a non-zero digit followed by digits. -/
def scanInt : Bytes → Option (Bytes × Bytes)
  | [] => none
  | b :: rest =>
    if b = 0x30 then some ([b], rest)
    else if isDigit b then some (b :: (spanDigits rest).1, (spanDigits rest).2)
    else none

/-- The optional fraction of a number: `.` and at least one digit. -/
def scanFrac : Bytes → Option (Bytes × Bytes)
  | [] => some ([], [])
  | b :: rest =>
    if b = 0x2E then
      match spanDigits rest with
      | ([], _) => none
      | (ds, r) => some (b :: ds, r)
    else some ([], b :: rest)

/-- The optional sign of an exponent. -/
def scanSign : Bytes → Bytes × Bytes
  | [] => ([], [])
  | b :: rest => if b = 0x2B ∨ b = 0x2D then ([b], rest) else ([], b :: rest)

/-- The optional exponent of a number: `e` or `E`, an optional sign, at least one digit. -/
def scanExp : Bytes → Option (Bytes × Bytes)
  | [] => some ([], [])
  | b :: rest =>
    if b = 0x65 ∨ b = 0x45 then
      match spanDigits (scanSign rest).2 with
      | ([], _) => none
      | (ds, r) => some (b :: (scanSign rest).1 ++ ds, r)
    else some ([], b :: rest)

/-- A number literal and what follows it. -/
def scanNumber (bs : Bytes) : Option (Bytes × Bytes) :=
  let neg : Bytes × Bytes :=
    match bs with
    | [] => ([], [])
    | b :: rest => if b = 0x2D then ([b], rest) else ([], b :: rest)
  match scanInt neg.2 with
  | none => none
  | some (i, r1) =>
    match scanFrac r1 with
    | none => none
    | some (f, r2) =>
      match scanExp r2 with
      | none => none
      | some (e, r3) => some (neg.1 ++ i ++ f ++ e, r3)

/-- The value of a hexadecimal digit. -/
def hexVal (b : UInt8) : Option Nat :=
  if 0x30 ≤ b ∧ b ≤ 0x39 then some (b.toNat - 0x30)
  else if 0x61 ≤ b ∧ b ≤ 0x66 then some (b.toNat - 0x61 + 10)
  else if 0x41 ≤ b ∧ b ≤ 0x46 then some (b.toNat - 0x41 + 10)
  else none

/-- The code unit of the four hexadecimal digits that follow `\u`. -/
def hex4 : Bytes → Option Nat
  | a :: b :: c :: d :: _ =>
    match hexVal a, hexVal b, hexVal c, hexVal d with
    | some x, some y, some z, some w => some (((x * 16 + y) * 16 + z) * 16 + w)
    | _, _, _, _ => none
  | _ => none

/-- The body of a string literal, after its opening quote: the raw bytes up to the closing
quote (escapes checked, not yet decoded) and what follows the closing quote. -/
def scanString : Bytes → Option (Bytes × Bytes)
  | [] => none
  | b :: rest =>
    if b = 0x22 then some ([], rest)
    else if b < 0x20 then none
    else if b = 0x5C then
      match rest with
      | [] => none
      | e :: rest2 =>
        if e = 0x75 then
          match hex4 rest2 with
          | none => none
          | some _ =>
            match scanString rest2 with
            | none => none
            | some (raw, r) => some (b :: e :: raw, r)
        else if e = 0x22 ∨ e = 0x5C ∨ e = 0x2F ∨ e = 0x62 ∨ e = 0x66 ∨ e = 0x6E ∨ e = 0x72
            ∨ e = 0x74 then
          match scanString rest2 with
          | none => none
          | some (raw, r) => some (b :: e :: raw, r)
        else none
    else
      match scanString rest with
      | none => none
      | some (raw, r) => some (b :: raw, r)

/-- The UTF-8 encoding of a code point. -/
def utf8Rune (r : Nat) : Bytes := String.utf8EncodeChar (Char.ofNat r)

/-- The byte a one-letter escape stands for. -/
def escByte (e : UInt8) : UInt8 :=
  if e = 0x62 then 0x08
  else if e = 0x66 then 0x0C
  else if e = 0x6E then 0x0A
  else if e = 0x72 then 0x0D
  else if e = 0x74 then 0x09
  else e

/-- The low half of a surrogate pair, when the bytes start with `\u` and a code unit in
`DC00..DFFF`. -/
def lowSurrogate : Bytes → Option Nat
  | b :: e :: rest =>
    if b = 0x5C ∧ e = 0x75 then
      match hex4 rest with
      | some r2 => if 0xDC00 ≤ r2 ∧ r2 < 0xE000 then some r2 else none
      | none => none
    else none
  | _ => none

/-- Decodes the escapes of a scanned string body. A surrogate that is not the high half of
a pair becomes U+FFFD. -/
def unquote : Nat → Bytes → Bytes
  | 0, _ => []
  | _ + 1, [] => []
  | fuel + 1, b :: rest =>
    if b = 0x5C then
      match rest with
      | [] => []
      | e :: rest2 =>
        if e = 0x75 then
          match hex4 rest2 with
          | none => []
          | some r =>
            if 0xD800 ≤ r ∧ r < 0xE000 then
              match (if r < 0xDC00 then lowSurrogate (rest2.drop 4) else none) with
              | some r2 =>
                utf8Rune (0x10000 + (r - 0xD800) * 0x400 + (r2 - 0xDC00))
                  ++ unquote fuel (rest2.drop 10)
              | none => utf8Rune 0xFFFD ++ unquote fuel (rest2.drop 4)
            else utf8Rune r ++ unquote fuel (rest2.drop 4)
        else escByte e :: unquote fuel rest2
    else b :: unquote fuel rest

/-- Whether the bytes start with the given literal; then what follows it. -/
def stripLiteral (lit : Bytes) (bs : Bytes) : Option Bytes :=
  if lit.isPrefixOf bs then some (bs.drop lit.length) else none

mutual

/-- A JSON value, after optional white space, and what follows it. -/
def parseValue : Nat → Bytes → Option (JSON × Bytes)
  | 0, _ => none
  | fuel + 1, bs =>
    match skipSpace bs with
    | [] => none
    | b :: rest =>
      if b = 0x7B then
        match skipSpace rest with
        | [] => none
        | c :: rest2 =>
          if c = 0x7D then some (JSON.obj [], rest2) else parseMembers fuel [] (c :: rest2)
      else if b = 0x5B then
        match skipSpace rest with
        | [] => none
        | c :: rest2 =>
          if c = 0x5D then some (JSON.arr [], rest2) else parseItems fuel [] (c :: rest2)
      else if b = 0x22 then
        match scanString rest with
        | none => none
        | some (raw, r) => some (JSON.str (unquote raw.length raw), r)
      else if b = 0x74 then
        (stripLiteral (utf8 "true") (b :: rest)).map (fun r => (JSON.bool true, r))
      else if b = 0x66 then
        (stripLiteral (utf8 "false") (b :: rest)).map (fun r => (JSON.bool false, r))
      else if b = 0x6E then
        (stripLiteral (utf8 "null") (b :: rest)).map (fun r => (JSON.null, r))
      else
        match scanNumber (b :: rest) with
        | none => none
        | some (lit, r) => some (JSON.num lit, r)

/-- The members of an object from the first key on, up to the closing brace. -/
def parseMembers : Nat → List (Bytes × JSON) → Bytes → Option (JSON × Bytes)
  | 0, _, _ => none
  | fuel + 1, acc, bs =>
    match skipSpace bs with
    | [] => none
    | q :: rest =>
      if q = 0x22 then
        match scanString rest with
        | none => none
        | some (raw, r) =>
          match skipSpace r with
          | [] => none
          | c :: r2 =>
            if c = 0x3A then
              match parseValue fuel r2 with
              | none => none
              | some (v, r3) =>
                match skipSpace r3 with
                | [] => none
                | d :: r4 =>
                  if d = 0x2C then parseMembers fuel (acc ++ [(unquote raw.length raw, v)]) r4
                  else if d = 0x7D then
                    some (JSON.obj (acc ++ [(unquote raw.length raw, v)]), r4)
                  else none
            else none
      else none

/-- The items of an array from the first item on, up to the closing bracket. -/
def parseItems : Nat → List JSON → Bytes → Option (JSON × Bytes)
  | 0, _, _ => none
  | fuel + 1, acc, bs =>
    match parseValue fuel bs with
    | none => none
    | some (v, r) =>
      match skipSpace r with
      | [] => none
      | d :: r2 =>
        if d = 0x2C then parseItems fuel (acc ++ [v]) r2
        else if d = 0x5D then some (JSON.arr (acc ++ [v]), r2)
        else none

end

/-- A whole JSON text: one value, white space around it, nothing else. A call of the parser
that starts a value, a member or an item is at most two calls away from one that has consumed
a byte, so twice the length of the input is fuel enough. -/
def parseJSON (data : Bytes) : Option JSON :=
  match parseValue (2 * data.length + 2) data with
  | none => none
  | some (v, rest) => if skipSpace rest = [] then some v else none

/-- ASCII upper case of a byte. -/
def foldByte (b : UInt8) : UInt8 := if 0x61 ≤ b ∧ b ≤ 0x7A then b - 0x20 else b

/-- Whether a key names the field with the given tag, ASCII case folded. -/
def keyIs (tag : String) (key : Bytes) : Bool := key.map foldByte = (utf8 tag).map foldByte

/-- The value of decimal digits. -/
def digitsVal (ds : Bytes) : Nat := ds.foldl (fun acc d => 10 * acc + (d.toNat - 0x30)) 0

/-- What `strconv.ParseInt(lit, 10, 64)` returns for a JSON number literal: its value when it
is an integer literal within 64 bits. -/
def parseInt64 (lit : Bytes) : Option Int :=
  let split : Bool × Bytes :=
    match lit with
    | [] => (false, [])
    | b :: rest => if b = 0x2D then (true, rest) else (false, b :: rest)
  if split.2 ≠ [] ∧ split.2.all isDigit = true then
    let v : Int := if split.1 then -(digitsVal split.2 : Int) else (digitsVal split.2 : Int)
    if -2 ^ 63 ≤ v ∧ v ≤ 2 ^ 63 - 1 then some v else none
  else none

/-- Stores a JSON value into an integer field. -/
def storeInt (old : Int) : JSON → Except JSONError Int
  | JSON.null => .ok old
  | JSON.num lit =>
    match parseInt64 lit with
    | some v => .ok v
    | none => .error JSONError.UnmarshalTypeError
  | _ => .error JSONError.UnmarshalTypeError

/-- Stores a JSON value into a string field. -/
def storeString (old : Bytes) : JSON → Except JSONError Bytes
  | JSON.null => .ok old
  | JSON.str s => .ok s
  | _ => .error JSONError.UnmarshalTypeError

/-- Stores one member of the object into the field its key names; other keys are skipped. -/
def setField (msg : Message) (key : Bytes) (v : JSON) : Except JSONError Message :=
  if keyIs "time" key then (storeInt msg.Time v).map (fun x => { msg with Time := x })
  else if keyIs "content" key then
    (storeString msg.Content v).map (fun x => { msg with Content := x })
  else if keyIs "logger_name" key then
    (storeString msg.LoggerName v).map (fun x => { msg with LoggerName := x })
  else if keyIs "file_name" key then
    (storeString msg.FileName v).map (fun x => { msg with FileName := x })
  else if keyIs "line_num" key then
    (storeInt msg.LineNum v).map (fun x => { msg with LineNum := x })
  else if keyIs "column_num" key then
    (storeInt msg.ColumnNum v).map (fun x => { msg with ColumnNum := x })
  else if keyIs "level" key then (storeInt msg.Level v).map (fun x => { msg with Level := x })
  else .ok msg

/-- Stores the members in order; a later member with the same key overrides. The first type
error ends the decoding: `encoding/json` goes on and returns that first error at the end,
which comes to the same result. -/
def setFields (msg : Message) : List (Bytes × JSON) → Except JSONError Message
  | [] => .ok msg
  | (key, v) :: rest =>
    match setField msg key v with
    | .error err => .error err
    | .ok msg2 => setFields msg2 rest

/-- The reference decoder for `json.Unmarshal(data, msg)`. -/
def jsonUnmarshal : Unmarshal := fun data msg =>
  match parseJSON data with
  | none => .error JSONError.SyntaxError
  | some JSON.null => .ok msg
  | some (JSON.obj members) => setFields msg members
  | some _ => .error JSONError.UnmarshalTypeError

deriving instance DecidableEq for Except

/-! ## The fan: registry, mutex and queue -/

/-- A `*websocket.Conn`, known by its identity. -/
structure Conn where
  id : Nat
deriving DecidableEq, Repr

/-- A call made on a connection. -/
inductive Call where
  | WriteJSON (c : Conn) (message : Message)
  | Close (c : Conn)
deriving DecidableEq, Repr

/-- Lines 142-147: `type Fan struct`. `in_` holds the messages sent on the channel `in`,
oldest first; `out` is the map, a list of entries in the order a `range` visits them (Go
leaves that order open, and every order is a list); `locked` is the embedded `sync.Mutex`;
`calls` records the calls made on connections, oldest first. -/
structure Fan where
  in_ : List Message
  counter : Int
  out : List (Int × Conn)
  locked : Bool
  calls : List Call
deriving DecidableEq, Repr

/-- Lines 231-236: `var fan = &Fan{...}`, with nothing sent and no call made yet. -/
def initFan : Fan := { in_ := [], counter := 0, out := [], locked := false, calls := [] }

/-- The map read `m[k]`: `none` stands for the nil pointer an absent key yields. -/
def mapGet : List (Int × Conn) → Int → Option Conn
  | [], _ => none
  | (k2, c) :: rest, k => if k2 = k then some c else mapGet rest k

/-- The map write `m[k] = c`: replaces the value of an existing key, else adds an entry. -/
def mapSet : List (Int × Conn) → Int → Conn → List (Int × Conn)
  | [], k, c => [(k, c)]
  | (k2, c2) :: rest, k, c => if k2 = k then (k, c) :: rest else (k2, c2) :: mapSet rest k c

/-- The map operation `delete(m, k)`. -/
def mapDelete (m : List (Int × Conn)) (k : Int) : List (Int × Conn) :=
  m.filter (fun e => decide (e.1 ≠ k))

/-- The keys of the map. -/
def mapKeys (m : List (Int × Conn)) : List Int := m.map Prod.fst

/-- The largest value of a Go `int` (64 bits). -/
def intMax : Int := 2 ^ 63 - 1

/-- The value a 64-bit signed integer holds after an arithmetic result `x`. -/
def wrapInt (x : Int) : Int := (x + 2 ^ 63) % 2 ^ 64 - 2 ^ 63

/-- What a call on the fan comes to: it returns `a` and leaves the fan in state `f`, or it
is blocked for good in `Lock` with the fan in state `f`. -/
inductive Result (α : Type) where
  | ret (a : α) (f : Fan)
  | blocked (f : Fan)
deriving DecidableEq, Repr

/-- The call `f.Lock()`: `none` when the mutex is held. `sync.Mutex` is not reentrant, and
no operation of the program releases a mutex it did not lock, so a caller that finds the
mutex held by an operation that is itself waiting never gets it. -/
def Fan.Lock (f : Fan) : Option Fan :=
  if f.locked then none else some { f with locked := true }

/-- The call `f.Unlock()`. -/
def Fan.Unlock (f : Fan) : Fan := { f with locked := false }

/-- Lines 150-158: `addConn`. -/
def Fan.addConn (f : Fan) (c : Conn) : Result Int :=
  match f.Lock with
  | none => Result.blocked f
  | some f1 =>
    let f2 : Fan := { f1 with counter := wrapInt (f1.counter + 1) }
    let f3 : Fan := { f2 with out := mapSet f2.out f2.counter c }
    Result.ret f3.counter f3.Unlock

/-- Lines 161-171: `removeConn`. -/
def Fan.removeConn (f : Fan) (num : Int) : Result Unit :=
  match f.Lock with
  | none => Result.blocked f
  | some f1 =>
    let f2 : Fan :=
      match mapGet f1.out num with
      | some c => { f1 with calls := f1.calls ++ [Call.Close c] }
      | none => f1
    let f3 : Fan := { f2 with out := mapDelete f2.out num }
    Result.ret () f3.Unlock

/-- The `range` loop of lines 218-222 over the entries still to visit. `writeErr c` tells
whether `c.WriteJSON` returns an error. The only entry `removeConn num` can delete is the
one being visited, so the entries still to visit are those of the map when the loop began.
The loop runs with the mutex held, so the `removeConn` it calls is blocked in `Lock`
(`blocked_of_held`) and the branch for its return is never taken. -/
def Fan.broadcastLoop (writeErr : Conn → Bool) (message : Message) :
    List (Int × Conn) → Fan → Result Unit
  | [], f => Result.ret () f
  | (num, c) :: rest, f =>
    let f1 : Fan := { f with calls := f.calls ++ [Call.WriteJSON c message] }
    if writeErr c then
      match f1.removeConn num with
      | Result.blocked f2 => Result.blocked f2
      | Result.ret _ f2 => Fan.broadcastLoop writeErr message rest f2
    else Fan.broadcastLoop writeErr message rest f1

/-- Lines 215-223: `broadcast`. -/
def Fan.broadcast (writeErr : Conn → Bool) (f : Fan) (message : Message) : Result Unit :=
  match f.Lock with
  | none => Result.blocked f
  | some f1 =>
    match Fan.broadcastLoop writeErr message f1.out f1 with
    | Result.blocked f2 => Result.blocked f2
    | Result.ret _ f2 => Result.ret () f2.Unlock

/-- The channel send `f.in <- msg`. -/
def Fan.enqueue (f : Fan) (msg : Message) : Fan := { f with in_ := f.in_ ++ [msg] }

/-- Lines 190-211: `queue`, with `flevel` the configured threshold `*flevel`. Returns the
fan and the error (`none` for `nil`). The first `if` has no `else`: after it the second
`if` and its `else` run whatever the first one did. -/
def Fan.queue (unmarshal : Unmarshal) (flevel : Int) (f : Fan) (message : Bytes) :
    Fan × Option JSONError :=
  let msg : Message := Message.zero
  let s1 : Fan × Message :=
    if message.length = clearOnStartMessage.length ∧ message = clearOnStartMessage then
      (f.enqueue { msg with Level := clearOnStart }, { msg with Level := clearOnStart })
    else (f, msg)
  if message.length = clearOnFinishMessage.length ∧ message = clearOnFinishMessage then
    (s1.1.enqueue { s1.2 with Level := clearOnFinish }, none)
  else
    match NewMessage unmarshal message with
    | .error err => (s1.1, some err)
    | .ok m => if m.Level ≥ flevel then (s1.1.enqueue m, none) else (s1.1, none)

/-- Line 280: the bytes `send` writes back when `queue` returns an error; `%s` copies the
payload as it is. -/
def errorReply (message : Bytes) : Bytes :=
  utf8 "\x7b\"error\":\"Message did not abide by the proper format.\", \"message\":\""
    ++ message ++ utf8 "\"\x7d"

/-- Lines 272-282: the loop of `send` over the payloads read from the producer connection
until a read fails. Returns the fan and the replies written to the producer, oldest first. -/
def send (unmarshal : Unmarshal) (flevel : Int) : Fan → List Bytes → Fan × List Bytes
  | f, [] => (f, [])
  | f, message :: rest =>
    match f.queue unmarshal flevel message with
    | (f1, some _) =>
      ((send unmarshal flevel f1 rest).1, errorReply message :: (send unmarshal flevel f1 rest).2)
    | (f1, none) => send unmarshal flevel f1 rest

/-- An operation on the registry. -/
inductive Op where
  | addConn (c : Conn)
  | removeConn (num : Int)
  | broadcast (message : Message) (writeErr : Conn → Bool)

/-- One operation: the fan afterwards and, for an `addConn` that returns, its handle. -/
def Fan.step (f : Fan) : Op → Fan × Option Int
  | Op.addConn c =>
    match f.addConn c with
    | Result.ret h f1 => (f1, some h)
    | Result.blocked f1 => (f1, none)
  | Op.removeConn num =>
    match f.removeConn num with
    | Result.ret _ f1 => (f1, none)
    | Result.blocked f1 => (f1, none)
  | Op.broadcast message writeErr =>
    match f.broadcast writeErr message with
    | Result.ret _ f1 => (f1, none)
    | Result.blocked f1 => (f1, none)

/-- A sequence of operations, one after the other: the fan afterwards and the handles the
`addConn` calls returned, in call order. -/
def Fan.run : Fan → List Op → Fan × List Int
  | f, [] => (f, [])
  | f, op :: ops =>
    ((Fan.run (f.step op).1 ops).1, (f.step op).2.toList ++ (Fan.run (f.step op).1 ops).2)

/-- The number of `addConn` calls in a sequence. -/
def addCount : List Op → Nat
  | [] => 0
  | Op.addConn _ :: ops => addCount ops + 1
  | _ :: ops => addCount ops

/-- A fan with the handles 1 and 2 registered, for the connections 7 and 8. -/
def fanTwo : Fan :=
  { in_ := [], counter := 2, out := [(1, Conn.mk 7), (2, Conn.mk 8)], locked := false,
    calls := [] }

/-- A sequence of five calls on the registry; no write fails in its `broadcast`. -/
def fiveCalls : List Op :=
  [Op.addConn (Conn.mk 7), Op.addConn (Conn.mk 8), Op.removeConn 1,
    Op.broadcast Message.zero (fun _ => false), Op.addConn (Conn.mk 9)]

/-- The fan `fanTwo` as `broadcast` holds it at line 220, after the write to connection 7
has failed: the mutex held, the write recorded. -/
def fanTwoHeld : Fan :=
  { in_ := [], counter := 2, out := [(1, Conn.mk 7), (2, Conn.mk 8)], locked := true,
    calls := [Call.WriteJSON (Conn.mk 7) Message.zero] }

/-- The payload `{"content":"boot","level":3}`. -/
def bootPayload : Bytes := utf8 "\x7b\"content\":\"boot\",\"level\":3\x7d"

/-- The message `NewMessage` makes of `bootPayload`. -/
def bootMessage : Message :=
  { Time := 0, Content := utf8 "boot", LoggerName := [], FileName := [], LineNum := -1,
    ColumnNum := -1, Level := 3 }

/-! ## The message model and the queue classifier -/

/-- What `NewMessage` does to the level the decoder stored: it keeps a level within
`debug..er`, that is 2..5, and replaces any other by `er`, that is 5. -/
theorem NewMessage_level (unmarshal : Unmarshal) (message : Bytes) (msg : Message)
    (h : unmarshal message Message.defaults = .ok msg) :
    NewMessage unmarshal message
      = .ok { msg with Level := if 2 ≤ msg.Level ∧ msg.Level ≤ 5 then msg.Level else 5 } := by
  unfold NewMessage
  rw [h]
  by_cases h1 : msg.Level < debug ∨ msg.Level > er
  · have h2 : ¬ (2 ≤ msg.Level ∧ msg.Level ≤ 5) := by
      simp only [debug, er] at h1; omega
    simp only [if_pos h1, if_neg h2]
    rfl
  · have h2 : 2 ≤ msg.Level ∧ msg.Level ≤ 5 := by
      simp only [debug, er] at h1; omega
    simp only [if_neg h1, if_pos h2]

/-- C1, evaluated on the code: the payload `{"content":"boot","level":5}` comes out of
`NewMessage` with content `boot` and level 5, not 3, and the payload
`{"content":"boot","level":0}` comes out with level 5, not 0: `debug` is 2 and `er` is 5. -/
theorem NewMessage_boot_level :
    NewMessage jsonUnmarshal (utf8 "\x7b\"content\":\"boot\",\"level\":5\x7d")
      = .ok { Message.defaults with Content := utf8 "boot", Level := 5 }
    ∧ NewMessage jsonUnmarshal (utf8 "\x7b\"content\":\"boot\",\"level\":0\x7d")
      = .ok { Message.defaults with Content := utf8 "boot", Level := 5 } := by
  decide

/-- C2, evaluated on the code: with threshold 2 the payload `{"content":"x","level":1}` is
enqueued, with level 5. -/
theorem queue_info_under_warn :
    Fan.queue jsonUnmarshal 2 initFan (utf8 "\x7b\"content\":\"x\",\"level\":1\x7d")
      = (initFan.enqueue { Message.defaults with Content := utf8 "x", Level := 5 }, none) := by
  decide

/-- C3, evaluated on the code: for every threshold, `queue` on the payload `clears`
enqueues the control message and then also parses the payload as a normal message, which
fails: it returns a syntax error. -/
theorem queue_clears_returns_error (flevel : Int) (f : Fan) :
    f.queue jsonUnmarshal flevel clearOnStartMessage
      = (f.enqueue { Message.zero with Level := -2 }, some JSONError.SyntaxError) := by
  have h : NewMessage jsonUnmarshal clearOnStartMessage = .error JSONError.SyntaxError := by
    decide
  have h2 : ¬ (clearOnStartMessage.length = clearOnFinishMessage.length
      ∧ clearOnStartMessage = clearOnFinishMessage) := by decide
  simp only [Fan.queue, h, h2, if_false, and_self, if_true, clearOnStart]

/-- C5: on a payload that is neither `clears` nor `clearf`, `queue` is parse, then filter.
When `NewMessage` fails, `queue` returns that error and the fan is as before. When
`NewMessage` returns `m`, `queue` returns no error; if the level of `m` is at least the
threshold the channel holds `m` after what it held and nothing else of the fan has changed,
and if it is below the threshold the fan is as before. -/
theorem queue_parse_then_filter (unmarshal : Unmarshal) (flevel : Int) (f : Fan) (p : Bytes)
    (h1 : p ≠ clearOnStartMessage) (h2 : p ≠ clearOnFinishMessage) :
    (∀ err, NewMessage unmarshal p = .error err →
      f.queue unmarshal flevel p = (f, some err))
    ∧ (∀ m, NewMessage unmarshal p = .ok m → flevel ≤ m.Level →
      f.queue unmarshal flevel p
        = ({ in_ := f.in_ ++ [m], counter := f.counter, out := f.out, locked := f.locked,
             calls := f.calls }, none))
    ∧ (∀ m, NewMessage unmarshal p = .ok m → m.Level < flevel →
      f.queue unmarshal flevel p = (f, none)) := by
  refine ⟨fun err he => ?_, fun m hm hl => ?_, fun m hm hl => ?_⟩
  · simp only [Fan.queue, h1, h2, and_false, if_false, he]
  · have hge : m.Level ≥ flevel := hl
    simp only [Fan.queue, h1, h2, and_false, if_false, hm, hge, if_true, Fan.enqueue]
  · have hnot : ¬ m.Level ≥ flevel := by omega
    simp only [Fan.queue, h1, h2, and_false, if_false, hm, hnot]

/-- C5 at the payload `{"content":"boot","level":3}`, which `NewMessage` accepts with level
3: under threshold 2 the message is put on the channel, under threshold 4 nothing is; and
at the payload `not json`, which `NewMessage` rejects: the syntax error is returned and
nothing is put on the channel. -/
theorem queue_parse_then_filter_witness :
    bootPayload ≠ clearOnStartMessage ∧ bootPayload ≠ clearOnFinishMessage
    ∧ NewMessage jsonUnmarshal bootPayload = .ok bootMessage
    ∧ initFan.queue jsonUnmarshal 2 bootPayload
      = ({ in_ := [bootMessage], counter := 0, out := [], locked := false, calls := [] }, none)
    ∧ initFan.queue jsonUnmarshal 4 bootPayload = (initFan, none)
    ∧ initFan.queue jsonUnmarshal 2 (utf8 "not json")
      = (initFan, some JSONError.SyntaxError) :=
  ⟨by decide, by decide, by decide,
    (queue_parse_then_filter jsonUnmarshal 2 initFan bootPayload (by decide) (by decide)).2.1
      bootMessage (by decide) (by decide),
    (queue_parse_then_filter jsonUnmarshal 4 initFan bootPayload (by decide) (by decide)).2.2
      bootMessage (by decide) (by decide),
    (queue_parse_then_filter jsonUnmarshal 2 initFan (utf8 "not json") (by decide)
      (by decide)).1 JSONError.SyntaxError (by decide)⟩

/-- The reply of `send` to a payload `queue` rejects: the fixed text around the payload,
copied as it is. -/
theorem send_reply (unmarshal : Unmarshal) (flevel : Int) (f : Fan) (p : Bytes)
    (err : JSONError) (h : (f.queue unmarshal flevel p).2 = some err) :
    send unmarshal flevel f [p] = ((f.queue unmarshal flevel p).1, [errorReply p]) := by
  cases hq : f.queue unmarshal flevel p with
  | mk f1 e =>
    rw [hq] at h
    simp only at h
    subst h
    simp only [send, hq]

/-- The example of the payload `not json`: nothing is enqueued and the reply is a JSON
text. -/
theorem send_reply_example :
    send jsonUnmarshal 0 initFan [utf8 "not json"]
      = (initFan, [utf8 ("\x7b\"error\":\"Message did not abide by the proper format.\", "
          ++ "\"message\":\"not json\"\x7d")])
    ∧ (parseJSON (utf8 ("\x7b\"error\":\"Message did not abide by the proper format.\", "
          ++ "\"message\":\"not json\"\x7d"))).isSome = true := by
  decide

/-- C9, evaluated on the code: for the payload `{"content":"boot"`, which `queue` rejects,
the reply `send` writes holds the payload unescaped and is not a JSON text. -/
theorem send_reply_not_json :
    send jsonUnmarshal 0 initFan [utf8 "\x7b\"content\":\"boot\""]
      = (initFan, [utf8 ("\x7b\"error\":\"Message did not abide by the proper format.\", "
          ++ "\"message\":\"\x7b\"content\":\"boot\"\"\x7d")])
    ∧ (parseJSON (utf8 ("\x7b\"error\":\"Message did not abide by the proper format.\", "
          ++ "\"message\":\"\x7b\"content\":\"boot\"\"\x7d"))).isSome = false := by
  decide

/-! ## Lemmas on the map and on the counter -/

theorem mapGet_eq_none_iff (m : List (Int × Conn)) (k : Int) :
    mapGet m k = none ↔ k ∉ mapKeys m := by
  induction m with
  | nil => simp [mapGet, mapKeys]
  | cons e rest ih =>
    obtain ⟨k2, c⟩ := e
    by_cases h : k2 = k
    · simp [mapGet, mapKeys, h]
    · have h2 : ¬ k = k2 := fun h3 => h h3.symm
      simp only [mapGet, if_neg h, ih, mapKeys, List.map_cons, List.mem_cons, h2, false_or]

theorem mem_mapKeys_mapSet (m : List (Int × Conn)) (k : Int) (c : Conn) (j : Int) :
    j ∈ mapKeys (mapSet m k c) ↔ j = k ∨ j ∈ mapKeys m := by
  induction m with
  | nil => simp [mapSet, mapKeys]
  | cons e rest ih =>
    obtain ⟨k2, c2⟩ := e
    by_cases h : k2 = k
    · subst h
      simp [mapSet, mapKeys]
    · simp only [mapKeys] at ih
      simp only [mapSet, if_neg h, mapKeys, List.map_cons, List.mem_cons, ih]
      tauto

theorem mapGet_mapSet_self (m : List (Int × Conn)) (k : Int) (c : Conn) :
    mapGet (mapSet m k c) k = some c := by
  induction m with
  | nil => simp [mapSet, mapGet]
  | cons e rest ih =>
    obtain ⟨k2, c2⟩ := e
    by_cases h : k2 = k
    · simp [mapSet, mapGet, h]
    · simp [mapSet, mapGet, h, ih]

theorem mem_mapKeys_mapDelete (m : List (Int × Conn)) (k j : Int) :
    j ∈ mapKeys (mapDelete m k) ↔ j ∈ mapKeys m ∧ j ≠ k := by
  induction m with
  | nil => simp [mapDelete, mapKeys]
  | cons e rest ih =>
    obtain ⟨k2, c2⟩ := e
    simp only [mapDelete, mapKeys] at ih
    by_cases h : k2 = k
    · subst h
      simp only [mapDelete, mapKeys, List.filter_cons, ne_eq, not_true_eq_false, decide_False,
        Bool.false_eq_true, if_false, ih, List.map_cons, List.mem_cons]
      constructor
      · rintro ⟨h1, h2⟩
        exact ⟨Or.inr h1, h2⟩
      · rintro ⟨h1 | h1, h2⟩
        · exact absurd h1 h2
        · exact ⟨h1, h2⟩
    · simp only [mapDelete, mapKeys, List.filter_cons, ne_eq, h, not_false_eq_true, decide_True,
        if_true, List.map_cons, List.mem_cons, ih]
      constructor
      · rintro (h1 | ⟨h1, h2⟩)
        · exact ⟨Or.inl h1, by rw [h1]; exact h⟩
        · exact ⟨Or.inr h1, h2⟩
      · rintro ⟨h1 | h1, h2⟩
        · exact Or.inl h1
        · exact Or.inr ⟨h1, h2⟩

theorem mapGet_mapDelete_self (m : List (Int × Conn)) (k : Int) :
    mapGet (mapDelete m k) k = none := by
  rw [mapGet_eq_none_iff, mem_mapKeys_mapDelete]
  exact fun h => h.2 rfl

theorem mapGet_mapDelete_ne (m : List (Int × Conn)) (k j : Int) (h : j ≠ k) :
    mapGet (mapDelete m k) j = mapGet m j := by
  induction m with
  | nil => simp [mapDelete, mapGet]
  | cons e rest ih =>
    obtain ⟨k2, c2⟩ := e
    simp only [mapDelete] at ih
    by_cases h2 : k2 = k
    · subst h2
      have h3 : ¬ k2 = j := fun h4 => h h4.symm
      simp only [mapDelete, List.filter_cons, ne_eq, not_true_eq_false, decide_False,
        Bool.false_eq_true, if_false, ih, mapGet, if_neg h3]
    · simp only [mapDelete, List.filter_cons, ne_eq, h2, not_false_eq_true, decide_True,
        if_true, mapGet, ih]

theorem mapDelete_of_absent (m : List (Int × Conn)) (k : Int) (h : mapGet m k = none) :
    mapDelete m k = m := by
  rw [mapGet_eq_none_iff] at h
  unfold mapDelete
  rw [List.filter_eq_self]
  intro e he
  have : e.1 ≠ k := fun h2 => h (by rw [← h2]; exact List.mem_map_of_mem Prod.fst he)
  simpa using this

theorem wrapInt_of_bounds (x : Int) (h1 : -2 ^ 63 ≤ x) (h2 : x ≤ intMax) : wrapInt x = x := by
  unfold intMax at h2
  unfold wrapInt
  have h3 : (x + 2 ^ 63) % 2 ^ 64 = x + 2 ^ 63 :=
    Int.emod_eq_of_lt (by omega) (by omega)
  omega

/-! ## Lemmas on the operations -/

theorem addConn_of_free (f : Fan) (c : Conn) (h : f.locked = false) :
    f.addConn c = Result.ret (wrapInt (f.counter + 1))
      { f with counter := wrapInt (f.counter + 1),
               out := mapSet f.out (wrapInt (f.counter + 1)) c } := by
  cases f
  simp only at h
  subst h
  rfl

theorem removeConn_of_free (f : Fan) (num : Int) (h : f.locked = false) :
    f.removeConn num = Result.ret ()
      { f with out := mapDelete f.out num,
               calls := match mapGet f.out num with
                 | some c => f.calls ++ [Call.Close c]
                 | none => f.calls } := by
  cases f with
  | mk in_ counter out locked calls =>
    simp only at h
    subst h
    simp only [Fan.removeConn, Fan.Lock, Bool.false_eq_true, if_false, Fan.Unlock]
    cases mapGet out num <;> rfl

theorem removeConn_of_absent (f : Fan) (num : Int) (h : f.locked = false)
    (hnone : mapGet f.out num = none) : f.removeConn num = Result.ret () f := by
  rw [removeConn_of_free f num h, hnone, mapDelete_of_absent f.out num hnone]

theorem blocked_of_held (f : Fan) (h : f.locked = true) :
    (∀ c, f.addConn c = Result.blocked f) ∧ (∀ num, f.removeConn num = Result.blocked f)
    ∧ (∀ w m, f.broadcast w m = Result.blocked f) := by
  refine ⟨fun c => ?_, fun num => ?_, fun w m => ?_⟩
  · simp [Fan.addConn, Fan.Lock, h]
  · simp [Fan.removeConn, Fan.Lock, h]
  · simp [Fan.broadcast, Fan.Lock, h]

/-- The loop of `broadcast` runs with the mutex held: it leaves the channel, the counter and
the map as they are, and the mutex held. -/
theorem broadcastLoop_frame (w : Conn → Bool) (m : Message) (es : List (Int × Conn)) :
    ∀ f : Fan, f.locked = true →
      ∃ f2 : Fan, (Fan.broadcastLoop w m es f = Result.ret () f2
          ∨ Fan.broadcastLoop w m es f = Result.blocked f2)
        ∧ f2.in_ = f.in_ ∧ f2.counter = f.counter ∧ f2.out = f.out ∧ f2.locked = true := by
  induction es with
  | nil => intro f h; exact ⟨f, Or.inl rfl, rfl, rfl, rfl, h⟩
  | cons e rest ih =>
    intro f h
    obtain ⟨num, c⟩ := e
    have hl : ({ f with calls := f.calls ++ [Call.WriteJSON c m] } : Fan).locked = true := h
    by_cases hw : w c = true
    · refine ⟨{ f with calls := f.calls ++ [Call.WriteJSON c m] }, Or.inr ?_, rfl, rfl, rfl, h⟩
      simp only [Fan.broadcastLoop, hw, if_true, (blocked_of_held _ hl).2.1]
    · obtain ⟨f2, h1, h2, h3, h4, h5⟩ := ih _ hl
      refine ⟨f2, ?_, h2, h3, h4, h5⟩
      simpa only [Fan.broadcastLoop, hw, Bool.false_eq_true, if_false] using h1

/-- The call `broadcast` with the mutex free leaves the channel, the counter and the map as
they are. -/
theorem broadcast_frame (w : Conn → Bool) (m : Message) (f : Fan) (h : f.locked = false) :
    ∃ f2 : Fan, (f.broadcast w m = Result.ret () f2 ∨ f.broadcast w m = Result.blocked f2)
      ∧ f2.in_ = f.in_ ∧ f2.counter = f.counter ∧ f2.out = f.out := by
  obtain ⟨f2, h1, h2, h3, h4, _⟩ :=
    broadcastLoop_frame w m f.out { f with locked := true } rfl
  rcases h1 with h1 | h1
  · refine ⟨f2.Unlock, Or.inl ?_, h2, h3, h4⟩
    simp only [Fan.broadcast, Fan.Lock, h, Bool.false_eq_true, if_false, h1]
  · refine ⟨f2, Or.inr ?_, h2, h3, h4⟩
    simp only [Fan.broadcast, Fan.Lock, h, Bool.false_eq_true, if_false, h1]

/-- When some write fails, `broadcast` is blocked in the `Lock` of `removeConn` with its own
mutex held, the map as it was. -/
theorem broadcast_blocked_of_write_error (w : Conn → Bool) (m : Message) (f : Fan)
    (h : f.locked = false) (e : Int × Conn) (he : e ∈ f.out) (hw : w e.2 = true) :
    ∃ f2 : Fan, f.broadcast w m = Result.blocked f2 ∧ f2.out = f.out ∧ f2.locked = true := by
  have key : ∀ (es : List (Int × Conn)) (g : Fan), g.locked = true → e ∈ es →
      ∃ g2 : Fan, Fan.broadcastLoop w m es g = Result.blocked g2 ∧ g2.out = g.out
        ∧ g2.locked = true := by
    intro es
    induction es with
    | nil => intro g _ hmem; exact absurd hmem (List.not_mem_nil e)
    | cons e2 rest ih =>
      intro g hg hmem
      obtain ⟨num, c⟩ := e2
      have hl : ({ g with calls := g.calls ++ [Call.WriteJSON c m] } : Fan).locked = true := hg
      by_cases hc : w c = true
      · refine ⟨{ g with calls := g.calls ++ [Call.WriteJSON c m] }, ?_, rfl, hg⟩
        simp only [Fan.broadcastLoop, hc, if_true, (blocked_of_held _ hl).2.1]
      · have hmem2 : e ∈ rest := by
          rcases List.mem_cons.mp hmem with h1 | h1
          · rw [h1] at hw
            exact absurd hw hc
          · exact h1
        obtain ⟨g2, h1, h2, h3⟩ := ih _ hl hmem2
        refine ⟨g2, ?_, h2, h3⟩
        simpa only [Fan.broadcastLoop, hc, Bool.false_eq_true, if_false] using h1
  obtain ⟨f2, h1, h2, h3⟩ := key f.out { f with locked := true } rfl he
  refine ⟨f2, ?_, h2, h3⟩
  simp only [Fan.broadcast, Fan.Lock, h, Bool.false_eq_true, if_false, h1]

/-- When no write fails, `broadcast` returns: it has written the message once to every
registered connection, in map order, and changed nothing else. -/
theorem broadcast_of_no_write_error (w : Conn → Bool) (m : Message) (f : Fan)
    (h : f.locked = false) (hw : ∀ e ∈ f.out, w e.2 = false) :
    f.broadcast w m = Result.ret ()
      { f with calls := f.calls ++ f.out.map (fun e => Call.WriteJSON e.2 m) } := by
  have key : ∀ (es : List (Int × Conn)) (g : Fan), (∀ e ∈ es, w e.2 = false) →
      Fan.broadcastLoop w m es g = Result.ret ()
        { g with calls := g.calls ++ es.map (fun e => Call.WriteJSON e.2 m) } := by
    intro es
    induction es with
    | nil => intro g _; simp [Fan.broadcastLoop]
    | cons e2 rest ih =>
      intro g hes
      obtain ⟨num, c⟩ := e2
      have hc : w c = false := hes (num, c) (List.mem_cons_self _ _)
      have hrest : ∀ e ∈ rest, w e.2 = false := fun e he => hes e (List.mem_cons_of_mem _ he)
      simp only [Fan.broadcastLoop, hc, Bool.false_eq_true, if_false, ih _ hrest, List.map_cons,
        List.append_assoc, List.singleton_append]
  cases f with
  | mk in_ counter out locked calls =>
    simp only at h
    subst h
    simp only [Fan.broadcast, Fan.Lock, Bool.false_eq_true, if_false, key out _ hw, Fan.Unlock]

/-! ## Lemmas on sequences of operations -/

theorem addCount_append (a b : List Op) : addCount (a ++ b) = addCount a + addCount b := by
  induction a with
  | nil => simp [addCount]
  | cons op rest ih =>
    rw [List.cons_append]
    cases op
    · simp only [addCount, ih]; omega
    · simp only [addCount, ih]
    · simp only [addCount, ih]

theorem run_append (a : List Op) : ∀ (f : Fan) (b : List Op),
    f.run (a ++ b) = (((f.run a).1.run b).1, (f.run a).2 ++ ((f.run a).1.run b).2) := by
  induction a with
  | nil => intro f b; simp [Fan.run]
  | cons op rest ih =>
    intro f b
    rw [List.cons_append]
    simp only [Fan.run, ih, List.append_assoc]

theorem step_of_held (f : Fan) (op : Op) (h : f.locked = true) : f.step op = (f, none) := by
  cases op with
  | addConn c => simp only [Fan.step, (blocked_of_held f h).1]
  | removeConn num => simp only [Fan.step, (blocked_of_held f h).2.1]
  | broadcast m w => simp only [Fan.step, (blocked_of_held f h).2.2]

/-- One operation keeps the registered handles within `1..counter` as long as the counter
does not wrap; a handle it returns is the counter plus one; it registers no handle at or
below the counter that was not registered. -/
theorem step_inv (f : Fan) (op : Op) (n : Nat)
    (h0 : 0 ≤ f.counter) (hn : f.counter ≤ n)
    (hk : ∀ k ∈ mapKeys f.out, 1 ≤ k ∧ k ≤ f.counter)
    (hb : (n : Int) + addCount [op] ≤ intMax) :
    (0 ≤ (f.step op).1.counter ∧ (f.step op).1.counter ≤ ((n + addCount [op] : Nat) : Int)
      ∧ ∀ k ∈ mapKeys (f.step op).1.out, 1 ≤ k ∧ k ≤ (f.step op).1.counter)
    ∧ f.counter ≤ (f.step op).1.counter
    ∧ (∀ h, (f.step op).2 = some h → f.counter < h ∧ h ≤ (f.step op).1.counter)
    ∧ (∀ k, k ≤ f.counter → k ∉ mapKeys f.out → k ∉ mapKeys (f.step op).1.out) := by
  by_cases hl : f.locked = true
  · rw [step_of_held f op hl]
    refine ⟨⟨h0, ?_, hk⟩, le_refl _, ?_, fun k _ h2 => h2⟩
    · push_cast; omega
    · intro h h1; simp at h1
  · have hfree : f.locked = false := by simpa using hl
    cases op with
    | addConn c =>
      have hc : (addCount [Op.addConn c] : Int) = 1 := by simp [addCount]
      have hw : wrapInt (f.counter + 1) = f.counter + 1 :=
        wrapInt_of_bounds _ (by omega) (by omega)
      simp only [Fan.step, addConn_of_free f c hfree, hw]
      refine ⟨⟨by omega, ?_, ?_⟩, by omega, ?_, ?_⟩
      · push_cast; omega
      · intro k hmem
        rcases (mem_mapKeys_mapSet _ _ _ _).mp hmem with h1 | h1
        · omega
        · have := hk k h1; omega
      · intro h h1
        simp only [Option.some.injEq] at h1
        omega
      · intro k h1 h2 hmem
        rcases (mem_mapKeys_mapSet _ _ _ _).mp hmem with h3 | h3
        · omega
        · exact h2 h3
    | removeConn num =>
      simp only [Fan.step, removeConn_of_free f num hfree]
      refine ⟨⟨h0, ?_, ?_⟩, le_refl _, ?_, ?_⟩
      · push_cast; omega
      · intro k hmem
        exact hk k ((mem_mapKeys_mapDelete _ _ _).mp hmem).1
      · intro h h1; simp at h1
      · intro k _ h2 hmem
        exact h2 ((mem_mapKeys_mapDelete _ _ _).mp hmem).1
    | broadcast m w =>
      obtain ⟨f2, h1, _, h3, h4⟩ := broadcast_frame w m f hfree
      have hs : (f.step (Op.broadcast m w)) = (f2, none) := by
        rcases h1 with h1 | h1 <;> simp only [Fan.step, h1]
      rw [hs]
      simp only [h3, h4]
      refine ⟨⟨h0, ?_, hk⟩, le_refl _, ?_, fun k _ h2 => h2⟩
      · push_cast; omega
      · intro h h1; simp at h1

/-- A sequence of operations keeps the registered handles within `1..counter` as long as
the counter does not wrap; the handles it returns are above the counter it started from,
strictly increasing; it registers no handle at or below the starting counter that was not
registered. -/
theorem run_inv (ops : List Op) : ∀ (f : Fan) (n : Nat),
    0 ≤ f.counter → f.counter ≤ n → (∀ k ∈ mapKeys f.out, 1 ≤ k ∧ k ≤ f.counter) →
    (n : Int) + addCount ops ≤ intMax →
    (0 ≤ (f.run ops).1.counter ∧ (f.run ops).1.counter ≤ ((n + addCount ops : Nat) : Int)
      ∧ ∀ k ∈ mapKeys (f.run ops).1.out, 1 ≤ k ∧ k ≤ (f.run ops).1.counter)
    ∧ f.counter ≤ (f.run ops).1.counter
    ∧ (∀ h ∈ (f.run ops).2, f.counter < h ∧ h ≤ (f.run ops).1.counter)
    ∧ List.Pairwise (fun a b => a < b) (f.run ops).2
    ∧ (∀ k, k ≤ f.counter → k ∉ mapKeys f.out → k ∉ mapKeys (f.run ops).1.out) := by
  induction ops with
  | nil =>
    intro f n h0 hn hk _
    simp only [Fan.run, addCount, Nat.add_zero]
    exact ⟨⟨h0, hn, hk⟩, le_refl _, by simp, List.Pairwise.nil, fun k _ h2 => h2⟩
  | cons op rest ih =>
    intro f n h0 hn hk hb
    have hcount : addCount (op :: rest) = addCount [op] + addCount rest := by
      have := addCount_append [op] rest
      simpa using this
    rw [hcount] at hb ⊢
    push_cast at hb
    obtain ⟨⟨s0, sn, sk⟩, sle, sh, sfresh⟩ := step_inv f op n h0 hn hk (by omega)
    obtain ⟨⟨r0, rn, rk⟩, rle, rh, rpw, rfresh⟩ :=
      ih (f.step op).1 (n + addCount [op]) s0 sn sk (by push_cast; omega)
    simp only [Fan.run]
    refine ⟨⟨r0, ?_, rk⟩, by omega, ?_, ?_, ?_⟩
    · rw [← Nat.add_assoc]; exact rn
    · intro h hmem
      rcases List.mem_append.mp hmem with h1 | h1
      · have := sh h (by simpa using h1)
        omega
      · have := rh h h1
        omega
    · rw [List.pairwise_append]
      refine ⟨?_, rpw, ?_⟩
      · cases (f.step op).2 <;> simp
      · intro a ha b hb2
        have h1 := sh a (by simpa using ha)
        have h2 := rh b hb2
        omega
    · intro k h1 h2
      exact rfresh k (by omega) (sfresh k h1 h2)

/-- From the initial fan. -/
theorem run_init_inv (ops : List Op) (hb : (addCount ops : Int) ≤ intMax) :
    (0 ≤ (initFan.run ops).1.counter ∧ (initFan.run ops).1.counter ≤ (addCount ops : Int)
      ∧ ∀ k ∈ mapKeys (initFan.run ops).1.out, 1 ≤ k ∧ k ≤ (initFan.run ops).1.counter)
    ∧ List.Pairwise (fun a b => a < b) (initFan.run ops).2 := by
  have h := run_inv ops initFan 0 (le_refl _) (le_refl _) (by simp [initFan, mapKeys])
    (by simpa using hb)
  simp only [Nat.zero_add] at h
  exact ⟨h.1, h.2.2.2.1⟩

theorem wrapInt_wrapInt_add (x y : Int) : wrapInt (wrapInt x + y) = wrapInt (x + y) := by
  unfold wrapInt
  omega

theorem wrapInt_idem (x : Int) : wrapInt (wrapInt x) = wrapInt x := by
  unfold wrapInt
  omega

/-- The calls `addConn` one after the other, from a fan whose mutex is free: the counter has
advanced by their number, wrapped; what was registered still is. -/
theorem run_replicate_addConn (c : Conn) (n : Nat) : ∀ f : Fan, f.locked = false →
    wrapInt f.counter = f.counter →
    (f.run (List.replicate n (Op.addConn c))).1.locked = false
    ∧ (f.run (List.replicate n (Op.addConn c))).1.counter = wrapInt (f.counter + n)
    ∧ (∀ k ∈ mapKeys f.out, k ∈ mapKeys (f.run (List.replicate n (Op.addConn c))).1.out) := by
  induction n with
  | zero =>
    intro f hf hc
    refine ⟨hf, ?_, fun k hk => hk⟩
    simp only [List.replicate_zero, Fan.run, Nat.cast_zero, add_zero, hc]
  | succ n ih =>
    intro f hf hc
    rw [List.replicate_succ]
    simp only [Fan.run, Fan.step, addConn_of_free f c hf]
    obtain ⟨h1, h2, h3⟩ := ih
      { f with counter := wrapInt (f.counter + 1),
               out := mapSet f.out (wrapInt (f.counter + 1)) c } hf (wrapInt_idem _)
    refine ⟨h1, ?_, fun k hk => h3 k ((mem_mapKeys_mapSet _ _ _ _).mpr (Or.inr hk))⟩
    rw [h2, wrapInt_wrapInt_add]
    push_cast
    ring_nf

/-- After one or more calls of `addConn` from the initial fan: the mutex is free, the counter
is their number, wrapped, and both the counter and the handle 1 are registered. -/
theorem run_init_replicate (c : Conn) (n : Nat) (hn : 1 ≤ n) :
    (initFan.run (List.replicate n (Op.addConn c))).1.locked = false
    ∧ (initFan.run (List.replicate n (Op.addConn c))).1.counter = wrapInt n
    ∧ (initFan.run (List.replicate n (Op.addConn c))).1.counter
        ∈ mapKeys (initFan.run (List.replicate n (Op.addConn c))).1.out
    ∧ (1 : Int) ∈ mapKeys (initFan.run (List.replicate n (Op.addConn c))).1.out
    ∧ ∃ mid, (initFan.run (List.replicate n (Op.addConn c))).2 = 1 :: mid := by
  obtain ⟨m, rfl⟩ : ∃ m, n = m + 1 := ⟨n - 1, by omega⟩
  have hinit : wrapInt initFan.counter = initFan.counter := by decide
  obtain ⟨a1, a2, _⟩ := run_replicate_addConn c m initFan rfl hinit
  have hfirst : (1 : Int) ∈ mapKeys (initFan.run (List.replicate (m + 1) (Op.addConn c))).1.out
      ∧ ∃ mid, (initFan.run (List.replicate (m + 1) (Op.addConn c))).2 = 1 :: mid := by
    rw [List.replicate_succ]
    have h1 : initFan.step (Op.addConn c)
        = ({ initFan with counter := 1, out := [(1, c)] }, some 1) := by
      simp only [Fan.step, addConn_of_free initFan c rfl]
      rfl
    simp only [Fan.run, h1]
    obtain ⟨_, _, b3⟩ := run_replicate_addConn c m
      { initFan with counter := 1, out := [(1, c)] } rfl (show wrapInt 1 = 1 by decide)
    exact ⟨b3 1 (by simp [mapKeys]), ⟨_, rfl⟩⟩
  have hlast : (initFan.run (List.replicate (m + 1) (Op.addConn c))).1
      = { (initFan.run (List.replicate m (Op.addConn c))).1 with
          counter := wrapInt ((initFan.run (List.replicate m (Op.addConn c))).1.counter + 1),
          out := mapSet (initFan.run (List.replicate m (Op.addConn c))).1.out
            (wrapInt ((initFan.run (List.replicate m (Op.addConn c))).1.counter + 1)) c } := by
    rw [List.replicate_succ', run_append]
    simp only [Fan.run, Fan.step, addConn_of_free _ c a1]
  refine ⟨?_, ?_, ?_, hfirst.1, hfirst.2⟩
  · rw [hlast]; exact a1
  · rw [hlast]
    show wrapInt ((initFan.run (List.replicate m (Op.addConn c))).1.counter + 1) = _
    rw [a2, wrapInt_wrapInt_add]
    congr 1
    show (0 : Int) + (m : Int) + 1 = ((m + 1 : Nat) : Int)
    push_cast
    ring
  · rw [hlast]
    exact (mem_mapKeys_mapSet _ _ _ _).mpr (Or.inl rfl)

/-- Of two or more calls of `addConn` from the initial fan the first returns 1 and the last
returns their number, wrapped. -/
theorem handles_replicate (c : Conn) (m : Nat) :
    ∃ mid, (initFan.run (List.replicate (m + 2) (Op.addConn c))).2
      = 1 :: (mid ++ [wrapInt ((m : Int) + 2)]) := by
  obtain ⟨h1, h2, _, _, mid, h5⟩ := run_init_replicate c (m + 1) (by omega)
  refine ⟨mid, ?_⟩
  rw [List.replicate_succ', run_append, h5]
  have hlast : ∀ s : Fan, s.locked = false → s.counter = wrapInt ((m + 1 : Nat) : Int) →
      (s.run [Op.addConn c]).2 = [wrapInt ((m : Int) + 2)] := by
    intro s hs hc
    simp only [Fan.run, Fan.step, addConn_of_free s c hs, hc, wrapInt_wrapInt_add,
      Option.toList, List.append_nil]
    congr 2
  rw [hlast _ h1 h2]
  rfl

/-! ## The registry -/

/-- C6, evaluated on the code: with the handles 1 and 2 registered and the write to the
connection of handle 1 failing, `broadcast` does not return. It is blocked in the `Lock` of
`removeConn` with its own mutex held, handle 1 is still registered, its connection has not
been closed, and the connection of handle 2 has not been written to. -/
theorem broadcast_write_error_blocks :
    fanTwo.broadcast (fun c => decide (c = Conn.mk 7)) Message.zero
      = Result.blocked
        { fanTwo with locked := true, calls := [Call.WriteJSON (Conn.mk 7) Message.zero] } := by
  decide

/-- C7, amended: in a sequence of `addConn`, `removeConn` and `broadcast` calls from the
initial fan with fewer than 2^63 calls of `addConn`, the handles `addConn` returns are
strictly increasing, and every `addConn` that finds the mutex free returns the counter plus
one, which is the counter afterwards and the handle the connection is registered under. -/
theorem addConn_handles_increase (ops : List Op) (hb : addCount ops < 2 ^ 63) :
    List.Pairwise (fun a b => a < b) (initFan.run ops).2
    ∧ ∀ pre c post, ops = pre ++ Op.addConn c :: post → (initFan.run pre).1.locked = false →
        ∃ f2, (initFan.run pre).1.addConn c = Result.ret ((initFan.run pre).1.counter + 1) f2
          ∧ f2.counter = (initFan.run pre).1.counter + 1
          ∧ mapGet f2.out ((initFan.run pre).1.counter + 1) = some c := by
  have hmax : intMax = 2 ^ 63 - 1 := rfl
  refine ⟨(run_init_inv ops (by rw [hmax]; omega)).2, ?_⟩
  intro pre c post hops hfree
  have hcount : addCount ops = addCount pre + (addCount post + 1) := by
    rw [hops, addCount_append]
    rfl
  obtain ⟨⟨h0, hn, _⟩, _⟩ := run_init_inv pre (by rw [hmax]; omega)
  have hw : wrapInt ((initFan.run pre).1.counter + 1) = (initFan.run pre).1.counter + 1 :=
    wrapInt_of_bounds _ (by omega) (by rw [hmax]; omega)
  rw [addConn_of_free _ c hfree, hw]
  exact ⟨_, rfl, rfl, mapGet_mapSet_self _ _ _⟩

/-- C7 at a sequence of five calls: the three handles returned are 1, 2 and 3. -/
theorem addConn_handles_increase_witness :
    addCount fiveCalls < 2 ^ 63
    ∧ (initFan.run fiveCalls).2 = [1, 2, 3]
    ∧ List.Pairwise (fun a b => a < b) (initFan.run fiveCalls).2 :=
  ⟨by decide, by decide, (addConn_handles_increase fiveCalls (by decide)).1⟩

/-- C7 as stated fails in two ways. Where the counter wraps: of 2^63 calls of `addConn`
from the initial fan the first returns 1 and the last returns -2^63. After a `broadcast`
with a failed write: the mutex stays held and the next `addConn` returns nothing, so of two
calls of `addConn` only the first has returned a handle. -/
theorem addConn_handles_counterexample :
    ¬ List.Pairwise (fun a b => a < b)
        (initFan.run (List.replicate (2 ^ 63) (Op.addConn (Conn.mk 0)))).2
    ∧ (initFan.run [Op.addConn (Conn.mk 7), Op.broadcast Message.zero (fun _ => true),
        Op.addConn (Conn.mk 8)]).2 = [1] := by
  refine ⟨?_, by decide⟩
  intro hpw
  obtain ⟨mid, hmid⟩ := handles_replicate (Conn.mk 0) (2 ^ 63 - 2)
  have e : 2 ^ 63 - 2 + 2 = 2 ^ 63 := by norm_num
  rw [e] at hmid
  rw [hmid] at hpw
  have hlt := (List.pairwise_cons.mp hpw).1 _
    (List.mem_append_right mid (List.mem_singleton_self _))
  have hv : wrapInt (((2 ^ 63 - 2 : Nat) : Int) + 2) = -2 ^ 63 := by
    unfold wrapInt
    norm_num
  rw [hv] at hlt
  norm_num at hlt

/-- The call `removeConn` with the mutex free returns. With a handle that is not
registered it changes nothing. With a registered handle it closes that connection, once,
and deletes that entry: every other entry, the counter and the channel are as before. A
second call with the same handle changes nothing. -/
theorem removeConn_frame (f : Fan) (num : Int) (hfree : f.locked = false) :
    (mapGet f.out num = none → f.removeConn num = Result.ret () f)
    ∧ (∀ c, mapGet f.out num = some c →
        ∃ f2, f.removeConn num = Result.ret () f2
          ∧ f2.calls = f.calls ++ [Call.Close c]
          ∧ mapGet f2.out num = none
          ∧ (∀ k, k ≠ num → mapGet f2.out k = mapGet f.out k)
          ∧ f2.out = f.out.filter (fun e => decide (e.1 ≠ num))
          ∧ f2.counter = f.counter ∧ f2.in_ = f.in_ ∧ f2.locked = false
          ∧ f2.removeConn num = Result.ret () f2) := by
  constructor
  · exact removeConn_of_absent f num hfree
  · intro c hsome
    refine ⟨_, removeConn_of_free f num hfree, ?_, mapGet_mapDelete_self _ _,
      fun k hk => mapGet_mapDelete_ne _ _ _ hk, rfl, rfl, rfl, hfree, ?_⟩
    · simp only [hsome]
    · exact removeConn_of_absent _ num hfree (mapGet_mapDelete_self f.out num)

/-- At the registry `{1, 2}` with the mutex free: removing handle 1 closes connection 7 and
leaves handle 2; removing handle 5, which is not registered, changes nothing. -/
theorem removeConn_frame_witness :
    fanTwo.locked = false
    ∧ fanTwo.removeConn 1
      = Result.ret () { fanTwo with out := [(2, Conn.mk 8)], calls := [Call.Close (Conn.mk 7)] }
    ∧ (mapGet fanTwo.out 5 = none → fanTwo.removeConn 5 = Result.ret () fanTwo) :=
  ⟨rfl, by decide, (removeConn_frame fanTwo 5 rfl).1⟩

/-- C8, evaluated on the code: the call `removeConn(1)` that `broadcast` makes at line 220
on the registry `{1, 2}`, after the write to the connection of handle 1 has failed, does not
return. It is blocked in `Lock`, handle 1 is still registered and no `Close` has been
called. The fan it is called on is the one `broadcast` is blocked with. -/
theorem removeConn_under_broadcast_blocks :
    fanTwoHeld.removeConn 1 = Result.blocked fanTwoHeld
    ∧ mapGet fanTwoHeld.out 1 = some (Conn.mk 7)
    ∧ Call.Close (Conn.mk 7) ∉ fanTwoHeld.calls
    ∧ fanTwo.broadcast (fun c => decide (c = Conn.mk 7)) Message.zero
      = Result.blocked fanTwoHeld := by
  decide

/-- C10, amended: after a sequence of `addConn`, `removeConn` and `broadcast` calls from the
initial fan with fewer than 2^63 calls of `addConn`, every registered handle lies in
`1..counter`; the handle a further `addConn` returns is not registered; and a handle that
was registered and has been removed by a `removeConn` that found the mutex free is not
registered. -/
theorem registered_handles_in_range (ops : List Op) (hb : addCount ops < 2 ^ 63) :
    (∀ k ∈ mapKeys (initFan.run ops).1.out, 1 ≤ k ∧ k ≤ (initFan.run ops).1.counter)
    ∧ (∀ c h f2, (initFan.run ops).1.addConn c = Result.ret h f2 →
        mapGet (initFan.run ops).1.out h = none)
    ∧ (∀ pre h post, ops = pre ++ Op.removeConn h :: post →
        (initFan.run pre).1.locked = false → mapGet (initFan.run pre).1.out h ≠ none →
        mapGet (initFan.run ops).1.out h = none) := by
  have hmax : intMax = 2 ^ 63 - 1 := rfl
  obtain ⟨⟨h0, hn, hk⟩, _⟩ := run_init_inv ops (by rw [hmax]; omega)
  refine ⟨hk, ?_, ?_⟩
  · intro c h f2 hret
    by_cases hl : (initFan.run ops).1.locked = true
    · rw [(blocked_of_held _ hl).1 c] at hret
      exact absurd hret (by simp)
    · have hfree : (initFan.run ops).1.locked = false := by simpa using hl
      rw [addConn_of_free _ c hfree] at hret
      have hh : h = wrapInt ((initFan.run ops).1.counter + 1) := by
        injection hret with h1 _
        exact h1.symm
      rw [mapGet_eq_none_iff]
      intro hmem
      have hrange := hk h hmem
      by_cases hlast : (initFan.run ops).1.counter + 1 ≤ intMax
      · rw [wrapInt_of_bounds _ (by omega) hlast] at hh
        omega
      · have hc : (initFan.run ops).1.counter = 2 ^ 63 - 1 := by
          rw [hmax] at hlast
          omega
        rw [hc] at hh
        have hv : wrapInt (2 ^ 63 - 1 + 1) = -2 ^ 63 := by decide
        rw [hv] at hh
        omega
  · intro pre h post hops hfree hreg
    have hcount : addCount ops = addCount pre + addCount post := by
      rw [hops, addCount_append]
      rfl
    obtain ⟨⟨p0, pn, pk⟩, _⟩ := run_init_inv pre (by rw [hmax]; omega)
    have hmem : h ∈ mapKeys (initFan.run pre).1.out := by
      by_contra hno
      exact hreg ((mapGet_eq_none_iff _ _).mpr hno)
    have hrange := pk h hmem
    have hstep : ((initFan.run pre).1.step (Op.removeConn h)).1
        = { (initFan.run pre).1 with
            out := mapDelete (initFan.run pre).1.out h,
            calls := match mapGet (initFan.run pre).1.out h with
              | some c => (initFan.run pre).1.calls ++ [Call.Close c]
              | none => (initFan.run pre).1.calls } := by
      simp only [Fan.step, removeConn_of_free _ h hfree]
    have hrun : (initFan.run ops).1
        = (((initFan.run pre).1.step (Op.removeConn h)).1.run post).1 := by
      rw [hops, run_append]
      rfl
    rw [hrun, hstep, mapGet_eq_none_iff]
    refine (run_inv post
      { (initFan.run pre).1 with
        out := mapDelete (initFan.run pre).1.out h,
        calls := match mapGet (initFan.run pre).1.out h with
          | some c => (initFan.run pre).1.calls ++ [Call.Close c]
          | none => (initFan.run pre).1.calls }
      (addCount pre) p0 pn ?_ (by rw [hmax]; omega)).2.2.2.2 h hrange.2 ?_
    · intro k hkmem
      exact pk k ((mem_mapKeys_mapDelete _ _ _).mp hkmem).1
    · intro hkmem
      exact ((mem_mapKeys_mapDelete _ _ _).mp hkmem).2 rfl

/-- C10 at a sequence of five calls: the registry ends as `{2, 3}` with the counter at 3,
a further `addConn` returns 4, which is not registered, and the removed handle 1 is not
registered. -/
theorem registered_handles_in_range_witness :
    addCount fiveCalls < 2 ^ 63
    ∧ mapKeys (initFan.run fiveCalls).1.out = [2, 3]
    ∧ (initFan.run fiveCalls).1.counter = 3
    ∧ ((initFan.run fiveCalls).1.step (Op.addConn (Conn.mk 10))).2 = some 4
    ∧ mapGet (initFan.run fiveCalls).1.out 1 = none
    ∧ (∀ k ∈ mapKeys (initFan.run fiveCalls).1.out,
        1 ≤ k ∧ k ≤ (initFan.run fiveCalls).1.counter) :=
  ⟨by decide, by decide, by decide, by decide, by decide,
    (registered_handles_in_range fiveCalls (by decide)).1⟩

/-- C10 as stated fails where the counter wraps. After 2^63 calls of `addConn` from the
initial fan the counter is -2^63 and is itself a registered handle, below 1. After 2^64
calls the counter is 0 again: the next `addConn` returns the handle 1, which is still
registered. -/
theorem registered_handles_wrap :
    ¬ (∀ k ∈ mapKeys (initFan.run (List.replicate (2 ^ 63) (Op.addConn (Conn.mk 0)))).1.out,
        1 ≤ k ∧ k ≤ (initFan.run (List.replicate (2 ^ 63) (Op.addConn (Conn.mk 0)))).1.counter)
    ∧ ∃ f2, (initFan.run (List.replicate (2 ^ 64) (Op.addConn (Conn.mk 0)))).1.addConn (Conn.mk 1)
          = Result.ret 1 f2
        ∧ mapGet (initFan.run (List.replicate (2 ^ 64) (Op.addConn (Conn.mk 0)))).1.out 1
          ≠ none := by
  constructor
  · intro hall
    obtain ⟨_, h2, h3, _, _⟩ := run_init_replicate (Conn.mk 0) (2 ^ 63) (by norm_num)
    have hrange := (hall _ h3).1
    rw [h2] at hrange
    have hv : wrapInt ((2 ^ 63 : Nat) : Int) = -2 ^ 63 := by
      unfold wrapInt
      norm_num
    rw [hv] at hrange
    norm_num at hrange
  · obtain ⟨h1, h2, _, h4, _⟩ := run_init_replicate (Conn.mk 0) (2 ^ 64) (by norm_num)
    have hv : wrapInt ((2 ^ 64 : Nat) : Int) = 0 := by
      unfold wrapInt
      norm_num
    have hone : wrapInt (0 + 1) = 1 := by decide
    have hadd := addConn_of_free _ (Conn.mk 1) h1
    rw [h2, hv, hone] at hadd
    exact ⟨_, hadd, fun hnone => (mapGet_eq_none_iff _ _).mp hnone h4⟩

end SocketLogger
